import Mathlib

set_option maxRecDepth 8000

/-!
Verification development for the PHIVOLCS earthquake pipeline
(`scrape_github_actions.py`, `combine_all_months.py`, `partition_master_2025.py`).

The Python sources are shallowly embedded below: pure functions become Lean
functions, the partition-file store becomes an explicit association list that
the router threads through, raising an exception becomes returning `none`
(or a dedicated error constructor).  Library calls (`datetime.strptime`,
`datetime.fromisoformat`, pandas parsing/coercion) are modelled by executable
Lean functions that reproduce the library semantics on the input shapes this
repository processes; each such model carries a doc comment saying what it
reproduces.
-/

namespace Phivolcs

/-! ## Characters and strings

Helpers for the ASCII text processing done by the Python sources (regex
`\s`, `\w`, case folding).  The scraped data is ASCII apart from NBSP and
the unicode dashes, both of which the source replaces explicitly, so the
ASCII versions of these predicates are faithful on the data in scope. -/

/-- Whitespace as matched by Python's regex class on this data:
space, tab, newline, carriage return, form feed, vertical tab. -/
def isSpc (c : Char) : Bool :=
  c = ' ' || c = '\t' || c = '\n' || c = Char.ofNat 13 || c = Char.ofNat 12 || c = Char.ofNat 11

/-- ASCII lower-casing (Python `str.lower` / `re.IGNORECASE` on ASCII). -/
def lowerChar (c : Char) : Char :=
  if 65 ≤ c.toNat ∧ c.toNat ≤ 90 then Char.ofNat (c.toNat + 32) else c

/-- ASCII upper-casing (Python `str.upper` on ASCII). -/
def upperChar (c : Char) : Char :=
  if 97 ≤ c.toNat ∧ c.toNat ≤ 122 then Char.ofNat (c.toNat - 32) else c

/-- Python regex word character `\w` on ASCII: letter, digit or underscore. -/
def isWordChar (c : Char) : Bool :=
  (48 ≤ c.toNat && c.toNat ≤ 57) || (65 ≤ c.toNat && c.toNat ≤ 90) ||
  (97 ≤ c.toNat && c.toNat ≤ 122) || c = '_'

/-- Digit value of an ASCII digit character. -/
def digitVal? (c : Char) : Option Nat :=
  if 48 ≤ c.toNat ∧ c.toNat ≤ 57 then some (c.toNat - 48) else none

/-- Python `str.strip()`: drop whitespace at both ends. -/
def stripChars (cs : List Char) : List Char :=
  ((cs.dropWhile isSpc).reverse.dropWhile isSpc).reverse

/-- Python `re.sub(r"\s+", " ", s)`: collapse whitespace runs to single
spaces.  The boolean records whether the previous character was whitespace. -/
def collapseWS : Bool → List Char → List Char
  | _, [] => []
  | prevSp, c :: cs =>
    if isSpc c then
      if prevSp then collapseWS true cs else ' ' :: collapseWS true cs
    else c :: collapseWS false cs

/-- Whitespace-normalization used by `clean_location` in both Python files:
`re.sub(r"\s+", " ", str(location).strip())`. -/
def clean_location (s : String) : String :=
  String.mk (collapseWS false (stripChars s.data))

/-! ## The canonical instant -/

/-- A parsed timestamp, as produced by the Python `datetime` constructor. -/
structure DateTime where
  year : Nat
  month : Nat
  day : Nat
  hour : Nat
  minute : Nat
  second : Nat
deriving DecidableEq, Repr

def isLeapYear (y : Nat) : Bool :=
  y % 4 = 0 && (y % 100 ≠ 0 || y % 400 = 0)

def daysInMonth (y m : Nat) : Nat :=
  if m = 2 then (if isLeapYear y then 29 else 28)
  else if m = 4 ∨ m = 6 ∨ m = 9 ∨ m = 11 then 30
  else 31

/-- The range checks performed by Python's `datetime(...)` constructor
(which `strptime` calls after its regex match): `ValueError` outside. -/
def validDateTime (y mo d h mi s : Nat) : Prop :=
  1 ≤ y ∧ y ≤ 9999 ∧ 1 ≤ mo ∧ mo ≤ 12 ∧ 1 ≤ d ∧ d ≤ daysInMonth y mo ∧
  h ≤ 23 ∧ mi ≤ 59 ∧ s ≤ 59

instance (y mo d h mi s : Nat) : Decidable (validDateTime y mo d h mi s) := by
  unfold validDateTime; infer_instance

/-- A chronological key for a datetime: strictly monotone (indeed injective) on
in-range datetimes (`month ≤ 12 < 13`, `day ≤ 31 < 32`, `hour < 24`,
`minute, second < 60`), so comparing keys is comparing instants. -/
def DateTime.key (d : DateTime) : Nat :=
  ((((d.year * 13 + d.month) * 32 + d.day) * 24 + d.hour) * 60 + d.minute) * 60 + d.second

/-! ## `datetime.strptime`, modelled

CPython's `_strptime` compiles a format string into a regex (whitespace in
the format becomes `\s+`, each directive a fixed alternation, the whole
matched case-insensitively against the full string) and then calls the
`datetime` constructor on the captured fields.  We reproduce that for the
directives used by `month_filename_from_datetime_str`'s format list:
`%Y %m %d %H %I %M %S %p %B %b` plus literals.  Alternation alternatives are
explored in regex priority order (longer numeric captures first), with full
backtracking, exactly as the regex engine does. -/

inductive FmtTok
  | lit (c : Char)
  | ws
  | dirY | dirm | dird | dirH | dirI | dirM | dirS | dirp | dirB | dirb
deriving DecidableEq, Repr

/-- Partial field assignment built up during a format match; the defaults are
CPython's (`year=1900, month=1, day=1, hour=minute=second=0`). -/
structure PF where
  y : Nat := 1900
  mo : Nat := 1
  d : Nat := 1
  h : Nat := 0
  i12 : Option Nat := none
  mi : Nat := 0
  s : Nat := 0
  pm : Option Bool := none
deriving Repr

def read1 (cs : List Char) : Option (Nat × List Char) :=
  match cs with
  | a :: rest => (digitVal? a).map (fun v => (v, rest))
  | _ => none

def read2 (cs : List Char) : Option (Nat × List Char) :=
  match cs with
  | a :: b :: rest =>
    match digitVal? a, digitVal? b with
    | some x, some y => some (10 * x + y, rest)
    | _, _ => none
  | _ => none

def read4 (cs : List Char) : Option (Nat × List Char) :=
  match cs with
  | a :: b :: c :: d :: rest =>
    match digitVal? a, digitVal? b, digitVal? c, digitVal? d with
    | some w, some x, some y, some z => some (1000 * w + 100 * x + 10 * y + z, rest)
    | _, _, _, _ => none
  | _ => none

/-- A 1-or-2 digit numeric directive: the two-digit alternative (value range
`lo2..hi2`) is tried before the one-digit alternative (range `lo1..hi1`),
matching the alternation order of CPython's directive regexes. -/
def numCandidates (lo2 hi2 lo1 hi1 : Nat) (cs : List Char) : List (Nat × List Char) :=
  (match read2 cs with
   | some (v, rest) => if lo2 ≤ v ∧ v ≤ hi2 then [(v, rest)] else []
   | none => []) ++
  (match read1 cs with
   | some (v, rest) => if lo1 ≤ v ∧ v ≤ hi1 then [(v, rest)] else []
   | none => [])

/-- The token `\s+` in the compiled format: consume one or more whitespace characters,
longest consumption first (greedy with backtracking). -/
def wsCandidates : List Char → List (List Char)
  | [] => []
  | c :: rest => if isSpc c then wsCandidates rest ++ [rest] else []

/-- Case-insensitively strip a (lowercase) pattern off the front of the input. -/
def dropNameCI : List Char → List Char → Option (List Char)
  | [], cs => some cs
  | _ :: _, [] => none
  | p :: ps, c :: cs => if lowerChar c = p then dropNameCI ps cs else none

def monthNamesFull : List String :=
  ["january", "february", "march", "april", "may", "june",
   "july", "august", "september", "october", "november", "december"]

def monthNamesAbbr : List String :=
  ["jan", "feb", "mar", "apr", "may", "jun", "jul", "aug", "sep", "oct", "nov", "dec"]

/-- Match one of the month names (1-based result).  No month name is a prefix
of another within either list, so the alternation order is immaterial. -/
def matchNameAux (cs : List Char) : List String → Nat → Option (Nat × List Char)
  | [], _ => none
  | n :: rest, k =>
    match dropNameCI n.data cs with
    | some remaining => some (k, remaining)
    | none => matchNameAux cs rest (k + 1)

def listJoin {α : Type} : List (List α) → List α
  | [] => []
  | x :: xs => x ++ listJoin xs

/-- All ways one directive can consume input, in regex priority order. -/
def applyTok : FmtTok → PF × List Char → List (PF × List Char)
  | .lit c, (pf, cs) =>
    match cs with
    | d :: rest => if d = c then [(pf, rest)] else []
    | [] => []
  | .ws, (pf, cs) => (wsCandidates cs).map (fun rest => (pf, rest))
  | .dirY, (pf, cs) =>
    match read4 cs with
    | some (v, rest) => [({ pf with y := v }, rest)]
    | none => []
  | .dirm, (pf, cs) => (numCandidates 1 12 1 9 cs).map (fun vr => ({ pf with mo := vr.1 }, vr.2))
  | .dird, (pf, cs) => (numCandidates 1 31 1 9 cs).map (fun vr => ({ pf with d := vr.1 }, vr.2))
  | .dirH, (pf, cs) => (numCandidates 0 23 0 9 cs).map (fun vr => ({ pf with h := vr.1 }, vr.2))
  | .dirI, (pf, cs) => (numCandidates 1 12 1 9 cs).map (fun vr => ({ pf with i12 := some vr.1 }, vr.2))
  | .dirM, (pf, cs) => (numCandidates 0 59 0 9 cs).map (fun vr => ({ pf with mi := vr.1 }, vr.2))
  | .dirS, (pf, cs) => (numCandidates 0 61 0 9 cs).map (fun vr => ({ pf with s := vr.1 }, vr.2))
  | .dirp, (pf, cs) =>
    match cs with
    | a :: b :: rest =>
      if lowerChar a = 'a' ∧ lowerChar b = 'm' then [({ pf with pm := some false }, rest)]
      else if lowerChar a = 'p' ∧ lowerChar b = 'm' then [({ pf with pm := some true }, rest)]
      else []
    | _ => []
  | .dirB, (pf, cs) =>
    (matchNameAux cs monthNamesFull 1).toList.map (fun kr => ({ pf with mo := kr.1 }, kr.2))
  | .dirb, (pf, cs) =>
    (matchNameAux cs monthNamesAbbr 1).toList.map (fun kr => ({ pf with mo := kr.1 }, kr.2))

/-- Run all directives over all live states.  The iterated flat-map lists the
leaves of the backtracking tree exactly in depth-first (regex priority)
order, so picking the first fully-consumed state below reproduces the
leftmost match the regex engine returns. -/
def runToks : List FmtTok → List (PF × List Char) → List (PF × List Char)
  | [], sts => sts
  | t :: ts, sts => runToks ts (listJoin (sts.map (applyTok t)))

/-- The `datetime(...)` construction from the matched fields, including the
`%I`/`%p` 12-hour conversion; `none` models `ValueError`. -/
def buildDT (pf : PF) : Option DateTime :=
  let h := match pf.i12, pf.pm with
    | some i, some true => if i = 12 then 12 else i + 12
    | some i, some false => if i = 12 then 0 else i
    | some i, none => i
    | none, _ => pf.h
  if validDateTime pf.y pf.mo pf.d h pf.mi pf.s then
    some ⟨pf.y, pf.mo, pf.d, h, pf.mi, pf.s⟩
  else none

/-- Modelled library call: `datetime.strptime(s, fmt)` for one format
(compiled to the token list), requiring the regex to consume the entire
input; `none` models `ValueError`. -/
def strptimeF (toks : List FmtTok) (s : List Char) : Option DateTime :=
  match (runToks toks [({}, s)]).find? (fun st => st.2.isEmpty) with
  | none => none
  | some (pf, _) => buildDT pf

/-! ### The scraper's format list (`candidates` in
`month_filename_from_datetime_str`) -/

def fmtIsoSec : List FmtTok :=
  [.dirY, .lit '-', .dirm, .lit '-', .dird, .ws, .dirH, .lit ':', .dirM, .lit ':', .dirS]
def fmtIsoMin : List FmtTok :=
  [.dirY, .lit '-', .dirm, .lit '-', .dird, .ws, .dirH, .lit ':', .dirM]
def fmtDashFull : List FmtTok :=
  [.dird, .ws, .dirB, .ws, .dirY, .ws, .lit '-', .ws, .dirI, .lit ':', .dirM, .ws, .dirp]
def fmtDashAbbr : List FmtTok :=
  [.dird, .ws, .dirb, .ws, .dirY, .ws, .lit '-', .ws, .dirI, .lit ':', .dirM, .ws, .dirp]
def fmtPlainFull : List FmtTok :=
  [.dird, .ws, .dirB, .ws, .dirY, .ws, .dirI, .lit ':', .dirM, .ws, .dirp]
def fmtPlainAbbr : List FmtTok :=
  [.dird, .ws, .dirb, .ws, .dirY, .ws, .dirI, .lit ':', .dirM, .ws, .dirp]
def fmtCommaFull : List FmtTok :=
  [.dird, .ws, .dirB, .ws, .dirY, .lit ',', .ws, .dirI, .lit ':', .dirM, .ws, .dirp]
def fmtCommaAbbr : List FmtTok :=
  [.dird, .ws, .dirb, .ws, .dirY, .lit ',', .ws, .dirI, .lit ':', .dirM, .ws, .dirp]
def fmtSlashSec : List FmtTok :=
  [.dirY, .lit '/', .dirm, .lit '/', .dird, .ws, .dirH, .lit ':', .dirM, .lit ':', .dirS]
def fmtSlashMin : List FmtTok :=
  [.dirY, .lit '/', .dirm, .lit '/', .dird, .ws, .dirH, .lit ':', .dirM]

def strptimeCandidates : List (List FmtTok) :=
  [fmtIsoSec, fmtIsoMin, fmtDashFull, fmtDashAbbr, fmtPlainFull, fmtPlainAbbr,
   fmtCommaFull, fmtCommaAbbr, fmtSlashSec, fmtSlashMin]

def firstSome {α : Type} : List (Option α) → Option α
  | [] => none
  | some a :: _ => some a
  | none :: l => firstSome l

/-! ### Preprocessing in `month_filename_from_datetime_str` -/

/-- Is a word-bounded `AM`/`PM` marker (case-insensitive) at the head of the
input, given the character just before it?  Mirrors `\b(?:AM|PM)\b`. -/
def markerHead (prev : Option Char) : List Char → Bool
  | a :: b :: rest =>
    (lowerChar a = 'a' || lowerChar a = 'p') && lowerChar b = 'm' &&
    (match prev with | none => true | some q => !isWordChar q) &&
    (match rest with | [] => true | d :: _ => !isWordChar d)
  | _ => false

/-- Find the earliest word-bounded AM/PM marker and keep the input up to and
including it; mirrors the non-greedy `re.match(r"^(.*?\b(?:AM|PM)\b)", s)`. -/
def ampmTruncAux (prev : Option Char) : List Char → Option (List Char)
  | [] => none
  | [_] => none
  | a :: b :: rest =>
    if markerHead prev (a :: b :: rest) then some [a, b]
    else (ampmTruncAux (some a) (b :: rest)).map (fun kept => a :: kept)

/-- Truncate after the first AM/PM marker if one exists (line 115–117 of the
scraper), otherwise leave the string unchanged. -/
def ampmTruncate (cs : List Char) : List Char :=
  (ampmTruncAux none cs).getD cs

/-- Uppercase every word-bounded am/pm marker; mirrors
`re.sub(r"\b(am|pm)\b", upper, s)`. -/
def ampmUpperAux (prev : Option Char) : List Char → List Char
  | [] => []
  | [c] => [c]
  | a :: b :: rest =>
    if markerHead prev (a :: b :: rest) then
      upperChar a :: 'M' :: ampmUpperAux (some 'M') rest
    else a :: ampmUpperAux (some a) (b :: rest)

/-- The cleaning pipeline at the top of `month_filename_from_datetime_str`:
NBSP to space, strip and collapse whitespace, unify en/em dashes, truncate
after an AM/PM marker, uppercase the marker. -/
def preprocessTimestamp (s : String) : List Char :=
  let c1 := s.data.map (fun c => if c = Char.ofNat 160 then ' ' else c)
  let c2 := collapseWS false (stripChars c1)
  let c3 := c2.map (fun c => if c = Char.ofNat 8211 ∨ c = Char.ofNat 8212 then '-' else c)
  ampmUpperAux none (ampmTruncate c3)

/-- Modelled library call: `datetime.fromisoformat` on the ISO shapes this
pipeline can feed it (`YYYY-MM-DD`, optionally followed by ` HH:MM` or
` HH:MM:SS`, all zero-padded); anything else is `ValueError` (`none`).
The caller has already replaced `/` by `-` and `T` by a space. -/
def fromIsoModel (cs : List Char) : Option DateTime :=
  match cs with
  | y1 :: y2 :: y3 :: y4 :: '-' :: m1 :: m2 :: '-' :: d1 :: d2 :: rest =>
    match digitVal? y1, digitVal? y2, digitVal? y3, digitVal? y4,
          digitVal? m1, digitVal? m2, digitVal? d1, digitVal? d2 with
    | some a, some b, some c, some d, some e, some f, some g, some h =>
      let y := 1000 * a + 100 * b + 10 * c + d
      let mo := 10 * e + f
      let dy := 10 * g + h
      match rest with
      | [] => if validDateTime y mo dy 0 0 0 then some ⟨y, mo, dy, 0, 0, 0⟩ else none
      | ' ' :: h1 :: h2 :: ':' :: n1 :: n2 :: rest2 =>
        match digitVal? h1, digitVal? h2, digitVal? n1, digitVal? n2 with
        | some p, some q, some r, some t =>
          let hh := 10 * p + q
          let mm := 10 * r + t
          match rest2 with
          | [] => if validDateTime y mo dy hh mm 0 then some ⟨y, mo, dy, hh, mm, 0⟩ else none
          | ':' :: s1 :: s2 :: [] =>
            match digitVal? s1, digitVal? s2 with
            | some u, some v =>
              if validDateTime y mo dy hh mm (10 * u + v) then
                some ⟨y, mo, dy, hh, mm, 10 * u + v⟩
              else none
            | _, _ => none
          | _ => none
        | _, _, _, _ => none
      | _ => none
    | _, _, _, _, _, _, _, _ => none
  | _ => none

/-- The Timestamp Normalizer: the parsing core of
`month_filename_from_datetime_str` (lines 110–147).  Preprocess, try the
fixed format list first-match-wins, then the `fromisoformat` fallback on the
`/`- and `T`-substituted string; `none` models the raised `ValueError`. -/
def normalizeTimestamp (dt_str : String) : Option DateTime :=
  let s := preprocessTimestamp dt_str
  match firstSome (strptimeCandidates.map (fun f => strptimeF f s)) with
  | some dt => some dt
  | none =>
    fromIsoModel (s.map (fun c => if c = '/' then '-' else if c = 'T' then ' ' else c))

/-- Zero-padded month as in the f-string `{dt.month:02d}`. -/
def pad2 (n : Nat) : String :=
  if n < 10 then "0" ++ toString n else toString n

/-- The partition filename pattern of line 149. -/
def partitionFilename (y m : Nat) : String :=
  "phivolcs_earthquakes_" ++ toString y ++ "_" ++ pad2 m ++ ".csv"

/-- The function `month_filename_from_datetime_str` in full: normalize, then build the
monthly CSV filename; `none` models the raised `ValueError`. -/
def month_filename_from_datetime_str (s : String) : Option String :=
  (normalizeTimestamp s).map (fun dt => partitionFilename dt.year dt.month)

example : normalizeTimestamp ("11 August 2025 - 12:07 PM") = some ⟨2025, 8, 11, 12, 7, 0⟩ := by
  decide

example :
    month_filename_from_datetime_str ("2025-08-11 12:07:00") =
      some "phivolcs_earthquakes_2025_08.csv" := by
  decide

example : normalizeTimestamp ("not a date") = none := by decide

/-! ## The Router and the Partition Store (`scrape_github_actions.py`)

A scraped record is a list of string cells (`Date-Time` first).  The
partition store is an association list from filename to file state; a file
state carries its data rows (the header row is implicit: it is written
exactly when the file is created) and a `readOk` flag modelling whether
reading the file back raises (the `except` branch of
`load_existing_records_for_file`).  Write errors (lines 182–183) are an
I/O-environment effect outside the data model: writes are modelled as
succeeding. -/

abbrev Row := List String

/-- The cell `row[0]` (the `Date-Time` string); rows reaching this accessor
are nonempty. -/
def rowKey : Row → String
  | [] => ""
  | c :: _ => c

/-- The cell `row[j]`, defaulting to the empty cell when absent. -/
def cellAt (r : Row) (j : Nat) : String :=
  match r.get? j with
  | some s => s
  | none => ""

structure FileState where
  rows : List Row
  readOk : Bool
deriving DecidableEq, Repr

abbrev Store := List (String × FileState)

def storeFind : Store → String → Option FileState
  | [], _ => none
  | (q, f) :: rest, p => if q = p then some f else storeFind rest p

/-- The data rows currently in a partition file (empty if absent). -/
def fileRows (st : Store) (p : String) : List Row :=
  ((storeFind st p).map FileState.rows).getD []

/-- The function `load_existing_records_for_file`: the set of `Date-Time` strings already
in the file; empty set when the file is absent, and also when reading it
raises (the `except Exception` branch, lines 52–54). -/
def load_existing_records_for_file (st : Store) (p : String) : List String :=
  match storeFind st p with
  | none => []
  | some f => if f.readOk then f.rows.filterMap List.head? else []

/-- Append rows to a partition file, creating it (header first, hence a
fresh readable file) if absent; lines 172–179.  The store is a model of the
directory, a partial map: the entry reached by `storeFind` is the one
extended. -/
def storeAppend : Store → String → List Row → Store
  | [], p, newRows => [(p, ⟨newRows, true⟩)]
  | (q, f) :: rest, p, newRows =>
    if q = p then (q, ⟨f.rows ++ newRows, f.readOk⟩) :: rest
    else (q, f) :: storeAppend rest p newRows

/-- Dict grouping as in `rows_by_file.setdefault(target_file, []).append(row)`: dict grouping in
key-insertion order, preserving row order within a group. -/
def groupInsert (gs : List (String × List Row)) (p : String) (r : Row) :
    List (String × List Row) :=
  match gs with
  | [] => [(p, [r])]
  | (q, rs) :: rest => if q = p then (q, rs ++ [r]) :: rest else (q, rs) :: groupInsert rest p r

/-- The grouping loop of `append_new_data_partitioned` (lines 154–160): skip
empty rows, derive each row's target file, group.  A row whose timestamp the
Normalizer rejects raises `ValueError` out of the whole call — modelled by
`none`. -/
def groupRows : List Row → List (String × List Row) → Option (List (String × List Row))
  | [], gs => some gs
  | r :: rest, gs =>
    if r.isEmpty then groupRows rest gs
    else
      match month_filename_from_datetime_str (rowKey r) with
      | none => none
      | some p => groupRows rest (groupInsert gs p r)

/-- The per-partition write loop (lines 164–185): load existing keys, keep
rows whose `Date-Time` is not already present, append the survivors. -/
def processGroups : Store → List (String × List Row) → Store × Nat
  | st, [] => (st, 0)
  | st, (p, rows) :: rest =>
    let existing := load_existing_records_for_file st p
    let newRows := rows.filter (fun r => !existing.contains (rowKey r))
    if newRows.isEmpty then processGroups st rest
    else
      let next := processGroups (storeAppend st p newRows) rest
      (next.1, next.2 + newRows.length)

/-- The function `append_new_data_partitioned`: group then write; returns the updated
store and the number of records added, or `none` when the call raises. -/
def append_new_data_partitioned (latest : List Row) (st : Store) : Option (Store × Nat) :=
  (groupRows latest []).map (fun gs => processGroups st gs)

/-- The function `scrape_latest_month`, with the network/HTML collaborator as input:
`none` models a request failure or any scraping exception (both `except`
arms return `[]`), `some tableRows` the extracted table rows.  Rows with
fewer than six cells are rejected; the location cell is cleaned and the row
truncated to six cells (lines 83–90). -/
def scrape_latest_month (response : Option (List Row)) : List Row :=
  match response with
  | none => []
  | some tableRows =>
    tableRows.filterMap (fun cols =>
      if 6 ≤ cols.length then some ((cols.take 6).set 5 (clean_location (cellAt cols 5)))
      else none)

/-- The function `main` (lines 206–230): scrape; if nothing was scraped, return without
touching the store; otherwise run the router.  The result is the final store
and the count of added records (`none` when the router raises). -/
def mainRun (response : Option (List Row)) (st : Store) : Option (Store × Nat) :=
  let latest := scrape_latest_month response
  if latest.isEmpty then some (st, 0)
  else append_new_data_partitioned latest st

/-! ## The Combine reconciler (`combine_all_months.py`) -/

/-- A decimal number in normal form (`mant / 10 ^ fexp` with `mant` not
divisible by 10 unless `fexp = 0`).  Two decimal literals denote the same
real number exactly when they normalize to the same `Dec`, which reproduces
the float equality pandas applies to the coerced columns on this data. -/
structure Dec where
  mant : Int
  fexp : Nat
deriving DecidableEq, Repr

/-- Strip trailing decimal zeros: normalize `m / 10 ^ e`. -/
def decNorm : Int → Nat → Dec
  | m, 0 => ⟨m, 0⟩
  | m, e + 1 => if m % 10 = 0 then decNorm (m / 10) e else ⟨m, e + 1⟩

/-- Modelled library call: `pd.to_numeric(x, errors='coerce')` on the string
cells of this dataset: an optional sign and a plain decimal literal parse to
the (normalized) decimal they denote; anything else (including the empty
cell, which pandas reads as NaN) coerces to NaN, i.e. `none`. -/
def to_numeric (s : String) : Option Dec :=
  let cs := stripChars s.data
  let signAndRest : Int × List Char :=
    match cs with
    | '-' :: rest => (-1, rest)
    | '+' :: rest => (1, rest)
    | _ => (1, cs)
  let intPart := signAndRest.2.takeWhile (fun c => (digitVal? c).isSome)
  let afterInt := signAndRest.2.dropWhile (fun c => (digitVal? c).isSome)
  let fracPart : Option (List Char) :=
    match afterInt with
    | [] => some []
    | '.' :: rest => if rest.all (fun c => (digitVal? c).isSome) then some rest else none
    | _ => none
  match fracPart with
  | none => none
  | some frac =>
    if intPart.isEmpty ∧ frac.isEmpty then none
    else
      let digits := intPart ++ frac
      let mant : Nat := digits.foldl (fun acc c => 10 * acc + ((digitVal? c).getD 0)) 0
      some (decNorm (signAndRest.1 * (mant : Int)) frac.length)

/-- Modelled library call: the flexible datetime parsing used as fallback by
`parse_datetime` (`pd.to_datetime` without a format) and by the Split script
(`pd.to_datetime(..., errors='coerce')`), realized over the timestamp shapes
this repository's data uses: the scraper's format chain plus ISO-like
variants; failures are `none` (NaT). -/
def pd_to_datetime (s : String) : Option DateTime :=
  let cs := stripChars s.data
  match firstSome (strptimeCandidates.map (fun f => strptimeF f cs)) with
  | some dt => some dt
  | none =>
    fromIsoModel (cs.map (fun c => if c = '/' then '-' else if c = 'T' then ' ' else c))

/-- The function `parse_datetime` of `combine_all_months.py` (lines 19–39): strip, try
the fixed format `%d %B %Y - %I:%M %p`, then the flexible parse; `None` on
failure. -/
def parse_datetime (s : String) : Option DateTime :=
  let t := String.mk (stripChars s.data)
  match strptimeF fmtDashFull t.data with
  | some dt => some dt
  | none => pd_to_datetime t

/-- A raw CSV row of a monthly file, as read by Combine. -/
structure RawCRow where
  dateTime : String
  latitude : String
  longitude : String
  depth : String
  magnitude : String
  location : String
deriving DecidableEq, Repr

/-- A processed Combine row: parsed timestamp, coerced numerics (NaN as
`none`), cleaned location, and the `Source_File` tag. -/
structure PRow where
  dateTime : Option DateTime
  latitude : Option Dec
  longitude : Option Dec
  depth : Option Dec
  magnitude : Option Dec
  location : String
  sourceFile : String
deriving DecidableEq, Repr

/-- Per-row cleaning of lines 85–94. -/
def processRow (file : String) (r : RawCRow) : PRow :=
  { dateTime := parse_datetime r.dateTime
    latitude := to_numeric r.latitude
    longitude := to_numeric r.longitude
    depth := to_numeric r.depth
    magnitude := to_numeric r.magnitude
    location := clean_location r.location
    sourceFile := file }

/-- The filter `df.dropna(subset=['Latitude', 'Longitude', 'Magnitude'])` keeps exactly
these rows (Depth is deliberately absent from the subset). -/
def validRow (p : PRow) : Bool :=
  p.latitude.isSome && p.longitude.isSome && p.magnitude.isSome

/-- Processing of one input file (lines 85–108): clean, parse, coerce, drop
rows missing latitude/longitude/magnitude, tag with the source file.
Returns the kept rows and the reported count of removed rows. -/
def processFile (file : String) (rows : List RawCRow) : List PRow × Nat :=
  let processed := rows.map (processRow file)
  let kept := processed.filter validRow
  (kept, processed.length - kept.length)

/-- The semantic-duplicate key of lines 131–134:
`(Date-Time, Latitude, Longitude, Magnitude)` after parsing/coercion.
pandas treats NaN as equal to NaN inside `drop_duplicates`, which `Option`
equality reproduces. -/
def semKey (p : PRow) : Option DateTime × Option Dec × Option Dec × Option Dec :=
  (p.dateTime, p.latitude, p.longitude, p.magnitude)

/-- The operation `drop_duplicates(..., keep='first')` generically: keep each element
whose key has not been seen before.  `seen` accumulates the keys already
kept; exact-row dedup is the instance `key = id`. -/
def dedupFirstBy {α κ : Type} [DecidableEq κ] (key : α → κ) :
    List κ → List α → List α
  | _, [] => []
  | seen, r :: rest =>
    if seen.contains (key r) then dedupFirstBy key seen rest
    else r :: dedupFirstBy key (key r :: seen) rest

/-- Descending-by-time rank with NaT last
(`sort_values('Date-Time', ascending=False)`, default `na_position='last'`):
sorting ascending by this rank is that order.  `descBase` bounds every
`DateTime.key` of an in-range year (`year ≤ 9999`). -/
def descBase : Nat := 10 ^ 12

def descRank (d : Option DateTime) : Nat :=
  match d with
  | some dt => descBase - dt.key
  | none => descBase + 1

def combineSortRel (a b : PRow) : Prop := descRank a.dateTime ≤ descRank b.dateTime

instance : DecidableRel combineSortRel := fun _ _ => Nat.decLe _ _

/-- The function `combine_all_months` (lines 41–165), from the list of present monthly
files (in the fixed chronological order of `monthly_files`, missing files
already skipped) to the merged dataset: per-file processing, concatenation,
exact-row dedup, semantic-key dedup keeping the first occurrence, sort by
time descending. -/
def combine_all_months (files : List (String × List RawCRow)) : List PRow :=
  let allRows := listJoin (files.map (fun f => (processFile f.1 f.2).1))
  let d1 := dedupFirstBy id [] allRows
  let d2 := dedupFirstBy semKey [] d1
  List.insertionSort combineSortRel d2

/-! ## `analyze_complete_data` (lines 167–206) -/

inductive AnalyzeError
  | divByZero
  | indexOutOfRange
deriving DecidableEq, Repr

def month_names : List String :=
  ["Jan", "Feb", "Mar", "Apr", "May", "Jun", "Jul", "Aug"]

/-- The monthly-distribution loop (lines 204–206): for each month value in
ascending order of the distinct months present, index `month_names` at
`month_num - 1`; an out-of-range index raises `IndexError`. -/
def monthlyLines (monthsAll : List Nat) : List Nat → Except AnalyzeError (List (String × Nat))
  | [] => .ok []
  | m :: rest =>
    match month_names.get? (m - 1) with
    | none => .error .indexOutOfRange
    | some name =>
      match monthlyLines monthsAll rest with
      | .error e => .error e
      | .ok tail => .ok ((name, monthsAll.count m) :: tail)

/-- The function `analyze_complete_data`: the earlier statistics are log output; the two
ways the function can raise are the magnitude-percentage division by
`len(df)` on an empty frame (line 196) and the month-name list indexing
(line 205).  `df['Month'].value_counts().sort_index()` is the ascending list
of distinct months among rows whose timestamp parsed (NaT months are
excluded from `value_counts`). -/
def analyze_complete_data (df : List PRow) : Except AnalyzeError (List (String × Nat)) :=
  if df.isEmpty then .error .divByZero
  else
    let months := df.filterMap (fun r => r.dateTime.map DateTime.month)
    let distinctSorted := List.insertionSort (· ≤ ·) (dedupFirstBy id [] months)
    monthlyLines months distinctSorted

/-! ## The Split reconciler (`partition_master_2025.py`) -/

/-- The master dataframe: column names plus rows of string cells. -/
structure MasterDF where
  cols : List String
  rows : List Row
deriving DecidableEq, Repr

/-- Line 16–19: index of the first column whose lower-cased name starts with
the prefix `date`. -/
def findDateCol (cols : List String) : Option Nat :=
  cols.findIdx? (fun c => (dropNameCI ("date".data) c.data).isSome)

/-- A monthly file written by Split: its name, the columns written
(`cols_present`), and the surviving rows paired with their parsed
timestamp.  `writtenCells` below is the projected content actually written. -/
structure SplitFile where
  name : String
  header : List String
  rows : List (Row × DateTime)
deriving DecidableEq, Repr

/-- The projection `g[cols_present]`: project a row to the listed columns. -/
def projectCells (cols : List String) (present : List String) (r : Row) : Row :=
  present.map (fun c => cellAt r ((cols.findIdx? (fun q => q = c)).getD 0))

def SplitFile.writtenCells (cols : List String) (f : SplitFile) : List Row :=
  f.rows.map (fun x => projectCells cols f.header x.1)

inductive SplitResult
  | noDateCol
  | noRows2025
  | written (files : List SplitFile)
deriving DecidableEq, Repr

def wanted_cols : List String :=
  ["Date-Time", "Latitude", "Longitude", "Depth", "Magnitude", "Location"]

def splitRel (a b : Row × DateTime) : Prop := a.2.key ≤ b.2.key

instance : DecidableRel splitRel := fun _ _ => Nat.decLe _ _

instance : IsTotal (Row × DateTime) splitRel := ⟨fun a b => Nat.le_total a.2.key b.2.key⟩

instance : IsTrans (Row × DateTime) splitRel := ⟨fun _ _ _ => Nat.le_trans⟩

/-- Ascending key order for the `(year, month)` group keys (pandas `groupby`
sorts group keys; months are `1..12 < 100`, so this encoding is the
lexicographic order). -/
def ymRel (a b : Nat × Nat) : Prop := a.1 * 100 + a.2 ≤ b.1 * 100 + b.2

instance : DecidableRel ymRel := fun _ _ => Nat.decLe _ _

/-- Line 25–28 of the Split script: parse every row's timestamp with the
permissive parser, dropping rows that fail (`errors='coerce'` + `notna`),
and keep each surviving row paired with its parsed instant (`__dt`). -/
def splitParsed (df : MasterDF) (j : Nat) : List (Row × DateTime) :=
  df.rows.filterMap (fun r => (pd_to_datetime (cellAt r j)).map (fun dt => (r, dt)))

/-- Line 31: filter to rows whose parsed year is 2025. -/
def splitParsed2025 (df : MasterDF) (j : Nat) : List (Row × DateTime) :=
  (splitParsed df j).filter (fun x => x.2.year = 2025)

/-- Line 37: deterministic ordering by `__dt` ascending. -/
def splitSorted (df : MasterDF) (j : Nat) : List (Row × DateTime) :=
  List.insertionSort splitRel (splitParsed2025 df j)

/-- Lines 40–52: the recognized columns present, the group keys in the
ascending order pandas `groupby` yields them, and one output file per
`(year, month)` group, each holding its group's rows in sorted order. -/
def splitFiles (df : MasterDF) (j : Nat) : List SplitFile :=
  (List.insertionSort ymRel
      (dedupFirstBy id [] ((splitSorted df j).map (fun x => (x.2.year, x.2.month))))).map
    (fun k =>
      { name := partitionFilename k.1 k.2
        header := wanted_cols.filter (fun c => df.cols.contains c)
        rows := (splitSorted df j).filter (fun x => x.2.year = k.1 ∧ x.2.month = k.2) })

/-- The script `partition_master_2025.py`, lines 13–54: find the date
column (exit 1 if none), parse every row's timestamp dropping failures,
filter to year 2025 (clean exit 0 writing nothing if empty), sort ascending
by time, group by `(year, month)` and emit one file per group. -/
def partition_master_2025 (df : MasterDF) : SplitResult :=
  match findDateCol df.cols with
  | none => .noDateCol
  | some j =>
    if (splitParsed2025 df j).isEmpty then .noRows2025
    else .written (splitFiles df j)

/-! ## Concrete fixtures used by witnesses and counterexamples -/

/-- A well-formed scraped row. -/
def goodRowC1 : Row := ["2025-08-11 12:07:00", "14.10", "121.00", "10", "4.5", "Manila"]

/-- A scraped row whose timestamp no format and no fallback can parse. -/
def badRowC1 : Row := ["SOON", "14.10", "121.00", "10", "4.5", "Manila"]

/-- A store whose single partition file raises on read (`readOk = false`),
and which already contains `goodRowC1`. -/
def corruptStore : Store :=
  [("phivolcs_earthquakes_2025_08.csv", ⟨[goodRowC1], false⟩)]

/-- A merged row whose canonical timestamp falls in September. -/
def prowSep : PRow :=
  { dateTime := some ⟨2025, 9, 1, 0, 0, 0⟩
    latitude := some ⟨1, 0⟩
    longitude := some ⟨1, 0⟩
    depth := none
    magnitude := some ⟨1, 0⟩
    location := "X"
    sourceFile := "f" }

/-! ## Helper lemmas -/

theorem groupRows_eq_none (latest : List Row) (gs : List (String × List Row))
    (h : ∃ r ∈ latest, r ≠ [] ∧ month_filename_from_datetime_str (rowKey r) = none) :
    groupRows latest gs = none := by
  induction latest generalizing gs with
  | nil => obtain ⟨r, hr, _⟩ := h; cases hr
  | cons a rest ih =>
    obtain ⟨r, hr, hne, hmf⟩ := h
    rcases List.mem_cons.mp hr with h1 | h1
    · subst h1
      have ha : r.isEmpty = false := by
        cases r with
        | nil => exact absurd rfl hne
        | cons x xs => rfl
      simp only [groupRows, ha, Bool.false_eq_true, if_false, hmf]
    · by_cases ha : a.isEmpty = true
      · simp only [groupRows, ha, if_true]
        exact ih gs ⟨r, h1, hne, hmf⟩
      · simp only [groupRows, ha, if_false]
        cases hmf2 : month_filename_from_datetime_str (rowKey a) with
        | none => rfl
        | some p => exact ih _ ⟨r, h1, hne, hmf⟩

theorem mem_dedupFirstBy_id {α : Type} [DecidableEq α] (seen : List α) (l : List α)
    (x : α) (hx : x ∈ l) (hs : x ∉ seen) : x ∈ dedupFirstBy id seen l := by
  induction l generalizing seen with
  | nil => cases hx
  | cons a rest ih =>
    rcases List.mem_cons.mp hx with h1 | h1
    · subst h1
      have hcon : seen.contains x = false := by
        simp only [List.contains, List.elem_eq_mem, decide_eq_false_iff_not]
        exact hs
      simp only [dedupFirstBy, id, hcon, Bool.false_eq_true, if_false]
      exact List.mem_cons_self _ _
    · by_cases hc : seen.contains a = true
      · simp only [dedupFirstBy, id, hc, if_true]
        exact ih seen h1 hs
      · simp only [dedupFirstBy, id, eq_false_of_ne_true hc, Bool.false_eq_true, if_false]
        by_cases hax : x = a
        · subst hax; exact List.mem_cons_self _ _
        · refine List.mem_cons_of_mem _ (ih (a :: seen) h1 ?_)
          intro hmem
          rcases List.mem_cons.mp hmem with h2 | h2
          · exact hax h2
          · exact hs h2

theorem monthlyLines_indexError (monthsAll : List Nat) (l : List Nat) (m : Nat)
    (hm : m ∈ l) (hbig : month_names.get? (m - 1) = none) :
    monthlyLines monthsAll l = .error .indexOutOfRange := by
  induction l with
  | nil => cases hm
  | cons a rest ih =>
    rcases List.mem_cons.mp hm with h1 | h1
    · subst h1
      simp only [monthlyLines, hbig]
    · cases hget : month_names.get? (a - 1) with
      | none => simp only [monthlyLines, hget]
      | some name =>
        simp only [monthlyLines, hget, ih h1]

/-! ## Claims -/

/-- C5 (confirmed): the Normalizer sends the raw string
"11 August 2025 - 12:07 PM" to the canonical instant 2025-08-11T12:07:00,
and the derived partition filename is the one for year 2025, zero-padded
month 08. -/
theorem c5_normalizer_example :
    normalizeTimestamp ("11 August 2025 - 12:07 PM") = some ⟨2025, 8, 11, 12, 7, 0⟩ ∧
    month_filename_from_datetime_str ("11 August 2025 - 12:07 PM") =
      some (partitionFilename 2025 8) ∧
    partitionFilename 2025 8 = "phivolcs_earthquakes_2025_08.csv" :=
  ⟨by decide, by decide, by decide⟩

/-- C7 (confirmed): when the network fetch fails (`response = none`, the
`except` arms of `scrape_latest_month` returning `[]`) or yields an empty
result, `main` returns with the partition store exactly as it was: no file
is created, appended to, or rewritten. -/
theorem c7_failed_or_empty_fetch_leaves_store (response : Option (List Row)) (st : Store)
    (h : response = none ∨ scrape_latest_month response = []) :
    mainRun response st = some (st, 0) := by
  have hempty : scrape_latest_month response = [] := by
    rcases h with h | h
    · subst h; rfl
    · exact h
  unfold mainRun
  rw [hempty]
  rfl

theorem c7_witness :
    ((none : Option (List Row)) = none ∨ scrape_latest_month none = []) ∧
    mainRun none corruptStore = some (corruptStore, 0) :=
  ⟨Or.inl rfl, c7_failed_or_empty_fetch_leaves_store none corruptStore (Or.inl rfl)⟩

/-- C1 (counterexample): a batch holding one parseable row and one row with
an unparseable timestamp makes `append_new_data_partitioned` raise
(`none`): the parseable row is NOT routed or appended and no failure count
is produced, contradicting the claim that the bad row is dropped and
counted while the rest of the batch is still appended. -/
theorem c1_counterexample :
    append_new_data_partitioned [goodRowC1, badRowC1] [] = none := by decide

/-- C1 (amended): a nonempty row whose raw timestamp the Normalizer cannot
parse is fatal to the whole batch: `append_new_data_partitioned` raises
`ValueError` during grouping, before any write, so no row of the batch is
appended and no failure is counted. -/
theorem c1_unparseable_row_aborts_batch (latest : List Row) (st : Store)
    (h : ∃ r ∈ latest, r ≠ [] ∧ month_filename_from_datetime_str (rowKey r) = none) :
    append_new_data_partitioned latest st = none := by
  unfold append_new_data_partitioned
  rw [groupRows_eq_none latest [] h]
  rfl

theorem c1_witness :
    (∃ r ∈ [goodRowC1, badRowC1], r ≠ [] ∧ month_filename_from_datetime_str (rowKey r) = none) ∧
    append_new_data_partitioned [goodRowC1, badRowC1] corruptStore = none :=
  ⟨by decide, c1_unparseable_row_aborts_batch [goodRowC1, badRowC1] corruptStore (by decide)⟩

/-- C9 (confirmed): `analyze_complete_data` indexes the eight-element
`month_names` list at `month - 1`, so any merged dataset containing a
record whose canonical timestamp falls in September through December makes
the monthly-distribution loop raise `IndexError` instead of reporting a
per-month count. -/
theorem c9_september_record_raises (df : List PRow) (r : PRow) (dt : DateTime)
    (hr : r ∈ df) (hdt : r.dateTime = some dt) (h9 : 9 ≤ dt.month) (h12 : dt.month ≤ 12) :
    analyze_complete_data df = .error .indexOutOfRange := by
  have hne : df.isEmpty = false := by
    cases df with
    | nil => cases hr
    | cons a l => rfl
  unfold analyze_complete_data
  rw [hne]
  simp only [Bool.false_eq_true, if_false]
  apply monthlyLines_indexError _ _ dt.month
  · rw [List.mem_insertionSort]
    apply mem_dedupFirstBy_id
    · exact List.mem_filterMap.mpr ⟨r, hr, by rw [hdt]; rfl⟩
    · exact List.not_mem_nil _
  · apply List.get?_eq_none.mpr
    have : month_names.length = 8 := by decide
    omega

theorem c9_witness :
    prowSep ∈ [prowSep] ∧ prowSep.dateTime = some ⟨2025, 9, 1, 0, 0, 0⟩ ∧
    analyze_complete_data [prowSep] = .error .indexOutOfRange :=
  ⟨List.mem_cons_self _ _, rfl,
    c9_september_record_raises [prowSep] prowSep ⟨2025, 9, 1, 0, 0, 0⟩
      (List.mem_cons_self _ _) rfl (by decide) (by decide)⟩

/-- C10 (confirmed): when reading an existing partition file raises,
`load_existing_records_for_file` returns the empty set, so the Router
treats the partition as empty and appends every candidate row routed to
it — including a row whose raw timestamp string is already stored in that
file. -/
theorem c10_read_error_treated_as_empty (st : Store) (p : String) (f : FileState) (r : Row)
    (hfind : storeFind st p = some f) (hbad : f.readOk = false)
    (hne : r ≠ []) (hroute : month_filename_from_datetime_str (rowKey r) = some p)
    (hdup : rowKey r ∈ f.rows.filterMap List.head?) :
    load_existing_records_for_file st p = [] ∧
    append_new_data_partitioned [r] st = some (storeAppend st p [r], 1) := by
  have hload : load_existing_records_for_file st p = [] := by
    unfold load_existing_records_for_file
    rw [hfind]
    show (if f.readOk = true then List.filterMap List.head? f.rows else []) = []
    rw [hbad]
    simp
  refine ⟨hload, ?_⟩
  have hre : r.isEmpty = false := by
    cases r with
    | nil => exact absurd rfl hne
    | cons x xs => rfl
  unfold append_new_data_partitioned
  have hgroup : groupRows [r] [] = some [(p, [r])] := by
    simp only [groupRows, hre, Bool.false_eq_true, if_false, hroute, groupInsert]
  rw [hgroup]
  show some (processGroups st [(p, [r])]) = some (storeAppend st p [r], 1)
  simp [processGroups, hload]

theorem c10_witness :
    storeFind corruptStore (partitionFilename 2025 8) = some ⟨[goodRowC1], false⟩ ∧
    rowKey goodRowC1 ∈ [goodRowC1].filterMap List.head? ∧
    load_existing_records_for_file corruptStore (partitionFilename 2025 8) = [] ∧
    append_new_data_partitioned [goodRowC1] corruptStore =
      some (storeAppend corruptStore (partitionFilename 2025 8) [goodRowC1], 1) := by
  refine ⟨by decide, by decide, ?_, ?_⟩
  · exact (c10_read_error_treated_as_empty corruptStore (partitionFilename 2025 8)
      ⟨[goodRowC1], false⟩ goodRowC1 (by decide) rfl (by decide) (by decide) (by decide)).1
  · exact (c10_read_error_treated_as_empty corruptStore (partitionFilename 2025 8)
      ⟨[goodRowC1], false⟩ goodRowC1 (by decide) rfl (by decide) (by decide) (by decide)).2

/-! ## Store lemmas for the Router -/

theorem storeAppend_find_other (st : Store) (q p : String) (rs : List Row) (h : q ≠ p) :
    storeFind (storeAppend st q rs) p = storeFind st p := by
  induction st with
  | nil => simp [storeAppend, storeFind, h]
  | cons a rest ih =>
    obtain ⟨aq, ag⟩ := a
    by_cases haq : aq = q
    · subst haq
      rw [storeAppend, if_pos rfl, storeFind, if_neg h, storeFind, if_neg h]
    · rw [storeAppend, if_neg haq]
      by_cases hap : aq = p
      · rw [storeFind, if_pos hap, storeFind, if_pos hap]
      · rw [storeFind, if_neg hap, storeFind, if_neg hap]
        exact ih

theorem storeAppend_find_self (st : Store) (p : String) (rs : List Row) :
    storeFind (storeAppend st p rs) p =
      some (match storeFind st p with
            | some f => ⟨f.rows ++ rs, f.readOk⟩
            | none => ⟨rs, true⟩) := by
  induction st with
  | nil => simp [storeAppend, storeFind]
  | cons a rest ih =>
    obtain ⟨aq, ag⟩ := a
    by_cases hap : aq = p
    · rw [storeAppend, if_pos hap, storeFind, if_pos hap, storeFind, if_pos hap]
    · rw [storeAppend, if_neg hap, storeFind, if_neg hap, storeFind, if_neg hap]
      exact ih

theorem fileRows_storeAppend_self (st : Store) (p : String) (rs : List Row) :
    fileRows (storeAppend st p rs) p = fileRows st p ++ rs := by
  unfold fileRows
  rw [storeAppend_find_self]
  cases storeFind st p <;> rfl

theorem fileRows_storeAppend_other (st : Store) (q p : String) (rs : List Row) (h : q ≠ p) :
    fileRows (storeAppend st q rs) p = fileRows st p := by
  unfold fileRows
  rw [storeAppend_find_other st q p rs h]

/-! ## Grouping lemmas for the Router -/

/-- The per-group invariant established by `groupRows`: every grouped row is
nonempty and routes (via the Normalizer) to its group's filename. -/
def GroupOk (g : String × List Row) : Prop :=
  ∀ r ∈ g.2, r ≠ [] ∧ month_filename_from_datetime_str (rowKey r) = some g.1

theorem groupInsert_groupOk (gs : List (String × List Row)) (p : String) (r : Row)
    (hbase : ∀ g ∈ gs, GroupOk g)
    (hr : r ≠ []) (hmf : month_filename_from_datetime_str (rowKey r) = some p) :
    ∀ g ∈ groupInsert gs p r, GroupOk g := by
  induction gs with
  | nil =>
    intro g hg
    rcases List.mem_cons.mp hg with h1 | h1
    · subst h1
      intro x hx
      rcases List.mem_cons.mp hx with h2 | h2
      · subst h2; exact ⟨hr, hmf⟩
      · cases h2
    · cases h1
  | cons a rest ih =>
    obtain ⟨aq, ars⟩ := a
    intro g hg
    by_cases hap : aq = p
    · rw [groupInsert, if_pos hap] at hg
      rcases List.mem_cons.mp hg with h1 | h1
      · subst h1
        intro x hx
        rcases List.mem_append.mp hx with h2 | h2
        · exact hbase (aq, ars) (List.mem_cons_self _ _) x h2
        · rcases List.mem_singleton.mp h2 with rfl
          exact ⟨hr, by rw [hmf, hap]⟩
      · exact hbase g (List.mem_cons_of_mem _ h1)
    · rw [groupInsert, if_neg hap] at hg
      rcases List.mem_cons.mp hg with h1 | h1
      · subst h1; exact hbase (aq, ars) (List.mem_cons_self _ _)
      · exact ih (fun g' hg' => hbase g' (List.mem_cons_of_mem _ hg')) g h1

theorem groupRows_groupOk (latest : List Row) (gs gs' : List (String × List Row))
    (hg : groupRows latest gs = some gs') (hbase : ∀ g ∈ gs, GroupOk g) :
    ∀ g ∈ gs', GroupOk g := by
  induction latest generalizing gs with
  | nil =>
    rw [groupRows] at hg
    injection hg with hg
    subst hg
    exact hbase
  | cons a rest ih =>
    by_cases ha : a.isEmpty = true
    · rw [groupRows, if_pos ha] at hg
      exact ih gs hg hbase
    · rw [groupRows, if_neg ha] at hg
      cases hmf : month_filename_from_datetime_str (rowKey a) with
      | none => rw [hmf] at hg; cases hg
      | some p =>
        rw [hmf] at hg
        have hane : a ≠ [] := by
          intro h
          subst h
          exact ha rfl
        exact ih (groupInsert gs p a) hg (groupInsert_groupOk gs p a hbase hane hmf)

/-- The keys of `groupInsert`: unchanged when the key was present, appended
otherwise. -/
theorem groupInsert_keys (gs : List (String × List Row)) (p : String) (r : Row) :
    (groupInsert gs p r).map Prod.fst =
      if p ∈ gs.map Prod.fst then gs.map Prod.fst else gs.map Prod.fst ++ [p] := by
  induction gs with
  | nil => simp [groupInsert]
  | cons a rest ih =>
    obtain ⟨aq, ars⟩ := a
    by_cases hap : aq = p
    · subst hap
      simp [groupInsert, List.mem_cons]

    · rw [groupInsert, if_neg hap]
      by_cases hmem : p ∈ rest.map Prod.fst
      · simp only [List.map_cons, ih, if_pos hmem]
        rw [if_pos]
        exact List.mem_cons_of_mem _ hmem
      · simp only [List.map_cons, ih, if_neg hmem]
        have hc : p ∉ aq :: rest.map Prod.fst := by
          intro hc
          rcases List.mem_cons.mp hc with h1 | h1
          · exact hap h1.symm
          · exact hmem h1
        rw [if_neg hc, List.cons_append]

theorem groupInsert_nodup_keys (gs : List (String × List Row)) (p : String) (r : Row)
    (h : (gs.map Prod.fst).Nodup) : ((groupInsert gs p r).map Prod.fst).Nodup := by
  rw [groupInsert_keys]
  by_cases hmem : p ∈ gs.map Prod.fst
  · rw [if_pos hmem]; exact h
  · rw [if_neg hmem]
    rw [List.nodup_append]
    exact ⟨h, List.nodup_singleton p, fun x hx hx' => hmem (by rwa [List.mem_singleton.mp hx'] at hx)⟩

theorem groupRows_nodup_keys (latest : List Row) (gs gs' : List (String × List Row))
    (hg : groupRows latest gs = some gs') (hbase : (gs.map Prod.fst).Nodup) :
    (gs'.map Prod.fst).Nodup := by
  induction latest generalizing gs with
  | nil =>
    rw [groupRows] at hg
    injection hg with hg
    subst hg
    exact hbase
  | cons a rest ih =>
    by_cases ha : a.isEmpty = true
    · rw [groupRows, if_pos ha] at hg
      exact ih gs hg hbase
    · rw [groupRows, if_neg ha] at hg
      cases hmf : month_filename_from_datetime_str (rowKey a) with
      | none => rw [hmf] at hg; cases hg
      | some p =>
        rw [hmf] at hg
        exact ih (groupInsert gs p a) hg (groupInsert_nodup_keys gs p a hbase)

/-! ## Write-loop lemmas for the Router -/

theorem processGroups_cons (st : Store) (p : String) (rows : List Row)
    (rest : List (String × List Row)) :
    processGroups st ((p, rows) :: rest) =
      (let existing := load_existing_records_for_file st p
       let newRows := rows.filter (fun r => !existing.contains (rowKey r))
       if newRows.isEmpty then processGroups st rest
       else
         let next := processGroups (storeAppend st p newRows) rest
         (next.1, next.2 + newRows.length)) := rfl

/-- Partition-correctness core: over a run of the write loop, each file
gains only rows that the grouping invariant routes to it. -/
theorem processGroups_fileRows (gs : List (String × List Row)) : ∀ (st : Store),
    (∀ g ∈ gs, GroupOk g) → ∀ (p : String),
    ∃ app, fileRows (processGroups st gs).1 p = fileRows st p ++ app ∧
      ∀ r ∈ app, month_filename_from_datetime_str (rowKey r) = some p := by
  induction gs with
  | nil =>
    intro st _ p
    exact ⟨[], (List.append_nil _).symm, fun r hr => absurd hr (List.not_mem_nil r)⟩
  | cons g rest ih =>
    obtain ⟨q, rows⟩ := g
    intro st hinv p
    rw [processGroups_cons]
    simp only []
    set newRows := rows.filter
      (fun r => !(load_existing_records_for_file st q).contains (rowKey r)) with hnew
    by_cases hempty : newRows.isEmpty = true
    · rw [if_pos hempty]
      exact ih st (fun g' hg' => hinv g' (List.mem_cons_of_mem _ hg')) p
    · rw [if_neg hempty]
      obtain ⟨app₂, h2, hr2⟩ :=
        ih (storeAppend st q newRows) (fun g' hg' => hinv g' (List.mem_cons_of_mem _ hg')) p
      by_cases hpq : q = p
      · subst hpq
        refine ⟨newRows ++ app₂, ?_, ?_⟩
        · rw [h2, fileRows_storeAppend_self, List.append_assoc]
        · intro r hr
          rcases List.mem_append.mp hr with h3 | h3
          · have hmem : r ∈ rows := List.mem_of_mem_filter h3
            exact (hinv (q, rows) (List.mem_cons_self _ _) r hmem).2
          · exact hr2 r h3
      · refine ⟨app₂, ?_, hr2⟩
        rw [h2, fileRows_storeAppend_other st q p newRows hpq]

/-- C3 (confirmed): every row the Router appends during a run lands in the
partition file whose name is built from the year and month of its own
normalized timestamp — rows written into the file for `(Y, M)` normalize to
year `Y`, month `M`. -/
theorem c3_partition_correctness (latest : List Row) (st st' : Store) (n : Nat)
    (hrun : append_new_data_partitioned latest st = some (st', n)) (p : String) :
    ∃ app, fileRows st' p = fileRows st p ++ app ∧
      ∀ r ∈ app, ∃ dt, normalizeTimestamp (rowKey r) = some dt ∧
        p = partitionFilename dt.year dt.month := by
  unfold append_new_data_partitioned at hrun
  cases hg : groupRows latest [] with
  | none => rw [hg] at hrun; cases hrun
  | some gs =>
    rw [hg] at hrun
    injection hrun with hrun
    have hrun2 : processGroups st gs = (st', n) := hrun
    have hinv : ∀ g ∈ gs, GroupOk g :=
      groupRows_groupOk latest [] gs hg (fun g hg' => absurd hg' (List.not_mem_nil g))
    obtain ⟨app, h1, h2⟩ := processGroups_fileRows gs st hinv p
    rw [hrun2] at h1
    refine ⟨app, h1, fun r hr => ?_⟩
    · have hmf := h2 r hr
      unfold month_filename_from_datetime_str at hmf
      cases hn : normalizeTimestamp (rowKey r) with
      | none => rw [hn] at hmf; cases hmf
      | some dt =>
        rw [hn] at hmf
        injection hmf with hmf
        exact ⟨dt, rfl, hmf.symm⟩

theorem c3_witness :
    append_new_data_partitioned [goodRowC1] [] =
      some ([(partitionFilename 2025 8, ⟨[goodRowC1], true⟩)], 1) ∧
    ∃ app,
      fileRows [(partitionFilename 2025 8, ⟨[goodRowC1], true⟩)] (partitionFilename 2025 8) =
        fileRows [] (partitionFilename 2025 8) ++ app ∧
      ∀ r ∈ app, ∃ dt, normalizeTimestamp (rowKey r) = some dt ∧
        partitionFilename 2025 8 = partitionFilename dt.year dt.month :=
  ⟨by decide,
    c3_partition_correctness [goodRowC1] [] [(partitionFilename 2025 8, ⟨[goodRowC1], true⟩)] 1
      (by decide) (partitionFilename 2025 8)⟩

/-! ## Idempotence lemmas for the Router -/

/-- The loaded key set only depends on the file's state. -/
theorem load_eq_of_find_eq (st₁ st₂ : Store) (p : String)
    (h : storeFind st₁ p = storeFind st₂ p) :
    load_existing_records_for_file st₁ p = load_existing_records_for_file st₂ p := by
  unfold load_existing_records_for_file
  rw [h]

theorem storeAppend_readOk (st : Store) (p : String) (rs : List Row)
    (hall : ∀ q f, storeFind st q = some f → f.readOk = true) :
    ∀ q f, storeFind (storeAppend st p rs) q = some f → f.readOk = true := by
  intro q f hf
  by_cases hpq : p = q
  · subst hpq
    rw [storeAppend_find_self] at hf
    cases hst : storeFind st p with
    | none =>
      rw [hst] at hf
      injection hf with hf
      rw [← hf]
    | some g =>
      rw [hst] at hf
      injection hf with hf
      rw [← hf]
      exact hall p g hst
  · rw [storeAppend_find_other st p q rs hpq] at hf
    exact hall q f hf

theorem processGroups_find_untouched (gs : List (String × List Row)) : ∀ (st : Store)
    (p : String), p ∉ gs.map Prod.fst →
    storeFind (processGroups st gs).1 p = storeFind st p := by
  induction gs with
  | nil => intro st p _; rfl
  | cons g rest ih =>
    obtain ⟨q, rows⟩ := g
    intro st p hp
    have hqp : q ≠ p := by
      intro h
      exact hp (by rw [List.map_cons, h]; exact List.mem_cons_self _ _)
    have hrest : p ∉ rest.map Prod.fst := by
      intro h
      exact hp (by rw [List.map_cons]; exact List.mem_cons_of_mem _ h)
    rw [processGroups_cons]
    simp only []
    by_cases hempty :
        (rows.filter
          (fun r => !(load_existing_records_for_file st q).contains (rowKey r))).isEmpty = true
    · rw [if_pos hempty]
      exact ih st p hrest
    · rw [if_neg hempty]
      rw [ih (storeAppend st q _) p hrest, storeAppend_find_other st q p _ hqp]

/-- Bridge between the boolean membership test used by the write loop and
propositional membership. -/
theorem contains_eq_true_iff_mem (l : List String) (x : String) :
    l.contains x = true ↔ x ∈ l :=
  ⟨fun h => List.elem_iff.mp h, fun h => List.elem_iff.mpr h⟩

/-- Key step for idempotence: after a full run of the write loop (readable
store, distinct group keys, nonempty grouped rows), every grouped row's
timestamp is among the stored keys of its group's partition. -/
theorem processGroups_heads (gs : List (String × List Row)) : ∀ (st : Store),
    ((gs.map Prod.fst).Nodup) →
    (∀ q f, storeFind st q = some f → f.readOk = true) →
    (∀ g ∈ gs, ∀ r ∈ g.2, r ≠ []) →
    ∀ g ∈ gs, ∀ r ∈ g.2,
      rowKey r ∈ load_existing_records_for_file (processGroups st gs).1 g.1 := by
  induction gs with
  | nil => intro st _ _ _ g hg; cases hg
  | cons g0 rest ih =>
    obtain ⟨q, rows⟩ := g0
    intro st hnodup hall hne g hg
    have h0 : (q :: rest.map Prod.fst).Nodup := by simpa using hnodup
    have hq_not_rest : q ∉ rest.map Prod.fst := (List.nodup_cons.mp h0).1
    have hnodup_rest : (rest.map Prod.fst).Nodup := (List.nodup_cons.mp h0).2
    rw [processGroups_cons]
    simp only []
    set existing := load_existing_records_for_file st q with hex
    set newRows := rows.filter (fun r => !existing.contains (rowKey r)) with hnewRows
    by_cases hempty : newRows.isEmpty = true
    · -- nothing new for this group: every grouped row is already stored
      rw [if_pos hempty]
      rcases List.mem_cons.mp hg with h1 | h1
      · subst h1
        intro r hr
        have hnil : List.filter (fun r => !existing.contains (rowKey r)) rows = [] := by
          rw [← hnewRows]
          exact List.isEmpty_iff.mp hempty
        have hcon := List.filter_eq_nil_iff.mp hnil r hr
        have hmem : rowKey r ∈ existing := by
          by_cases hb : existing.contains (rowKey r) = true
          · exact (contains_eq_true_iff_mem existing (rowKey r)).mp hb
          · exfalso
            apply hcon
            have hb' : existing.contains (rowKey r) = false := by simpa using hb
            rw [hb']
            rfl
        rw [load_eq_of_find_eq (processGroups st rest).1 st q
          (processGroups_find_untouched rest st q hq_not_rest)]
        exact hmem
      · exact ih st hnodup_rest hall
          (fun g' hg' => hne g' (List.mem_cons_of_mem _ hg')) g h1
    · rw [if_neg hempty]
      simp only []
      rcases List.mem_cons.mp hg with h1 | h1
      · subst h1
        intro r hr
        have hrne : r ≠ [] := hne (q, rows) (List.mem_cons_self _ _) r hr
        have hhead : r.head? = some (rowKey r) := by
          cases r with
          | nil => exact absurd rfl hrne
          | cons c cs => rfl
        have hload₁ : rowKey r ∈ load_existing_records_for_file (storeAppend st q newRows) q := by
          unfold load_existing_records_for_file
          rw [storeAppend_find_self]
          cases hst : storeFind st q with
          | none =>
            -- the partition file did not exist: the whole group is appended
            show rowKey r ∈ List.filterMap List.head? newRows
            have hex_nil : existing = [] := by
              rw [hex]
              unfold load_existing_records_for_file
              rw [hst]
            have hnew_all : newRows = rows := by
              rw [hnewRows, hex_nil]
              exact List.filter_eq_self.mpr (fun a _ => rfl)
            exact List.mem_filterMap.mpr ⟨r, by rw [hnew_all]; exact hr, hhead⟩
          | some f =>
            have hok : f.readOk = true := hall q f hst
            show rowKey r ∈
              (if f.readOk = true then List.filterMap List.head? (f.rows ++ newRows) else [])
            rw [hok]
            simp only [if_true, List.filterMap_append]
            by_cases hmem : rowKey r ∈ existing
            · have hexf : existing = f.rows.filterMap List.head? := by
                rw [hex]
                unfold load_existing_records_for_file
                rw [hst]
                show (if f.readOk = true then List.filterMap List.head? f.rows else []) =
                  List.filterMap List.head? f.rows
                rw [hok]
                simp
              exact List.mem_append.mpr (Or.inl (by rw [← hexf]; exact hmem))
            · have hrnew : r ∈ newRows := by
                rw [hnewRows]
                refine List.mem_filter.mpr ⟨hr, ?_⟩
                have hb' : existing.contains (rowKey r) = false := by
                  by_cases hb : existing.contains (rowKey r) = true
                  · exact absurd ((contains_eq_true_iff_mem existing (rowKey r)).mp hb) hmem
                  · simpa using hb
                show (!existing.contains (rowKey r)) = true
                rw [hb']
                rfl
              exact List.mem_append.mpr (Or.inr (List.mem_filterMap.mpr ⟨r, hrnew, hhead⟩))
        rw [load_eq_of_find_eq (processGroups (storeAppend st q newRows) rest).1
          (storeAppend st q newRows) q
          (processGroups_find_untouched rest (storeAppend st q newRows) q hq_not_rest)]
        exact hload₁
      · exact ih (storeAppend st q newRows)
          hnodup_rest
          (storeAppend_readOk st q newRows hall)
          (fun g' hg' => hne g' (List.mem_cons_of_mem _ hg')) g h1

/-- A run whose every grouped row is already stored writes nothing. -/
theorem processGroups_noop (gs : List (String × List Row)) : ∀ (st : Store),
    (∀ g ∈ gs, ∀ r ∈ g.2, rowKey r ∈ load_existing_records_for_file st g.1) →
    processGroups st gs = (st, 0) := by
  induction gs with
  | nil => intro st _; rfl
  | cons g0 rest ih =>
    obtain ⟨q, rows⟩ := g0
    intro st hstored
    rw [processGroups_cons]
    simp only []
    have hnil : rows.filter
        (fun r => !(load_existing_records_for_file st q).contains (rowKey r)) = [] := by
      apply List.filter_eq_nil_iff.mpr
      intro r hr hcon
      have hmem := hstored (q, rows) (List.mem_cons_self _ _) r hr
      have hb : (load_existing_records_for_file st q).contains (rowKey r) = true :=
        (contains_eq_true_iff_mem _ _).mpr hmem
      rw [hb] at hcon
      simp at hcon
    rw [hnil]
    simp only [List.isEmpty_nil, if_pos rfl]
    exact ih st (fun g' hg' => hstored g' (List.mem_cons_of_mem _ hg'))

/-- C2 (confirmed): the Router is idempotent.  If every pre-existing
partition file is readable, then after a run that produced store `st'`,
re-running `append_new_data_partitioned` with the identical batch against
`st'` adds zero records and leaves every partition file's contents equal:
the result is exactly `(st', 0)`. -/
theorem c2_router_idempotent (latest : List Row) (st st' : Store) (n : Nat)
    (hreadOk : ∀ q f, storeFind st q = some f → f.readOk = true)
    (hrun : append_new_data_partitioned latest st = some (st', n)) :
    append_new_data_partitioned latest st' = some (st', 0) := by
  unfold append_new_data_partitioned at hrun ⊢
  cases hg : groupRows latest [] with
  | none => rw [hg] at hrun; cases hrun
  | some gs =>
    rw [hg] at hrun
    injection hrun with hrun
    have hrun2 : processGroups st gs = (st', n) := hrun
    have hnodup : (gs.map Prod.fst).Nodup :=
      groupRows_nodup_keys latest [] gs hg (by simp)
    have hok : ∀ g ∈ gs, GroupOk g :=
      groupRows_groupOk latest [] gs hg (fun g hg' => absurd hg' (List.not_mem_nil g))
    have hne : ∀ g ∈ gs, ∀ r ∈ g.2, r ≠ [] := fun g hg' r hr => (hok g hg' r hr).1
    have hheads := processGroups_heads gs st hnodup hreadOk hne
    rw [hrun2] at hheads
    have hnoop := processGroups_noop gs st' (fun g hg' r hr => hheads g hg' r hr)
    show some (processGroups st' gs) = some (st', 0)
    rw [hnoop]

theorem c2_witness :
    (∀ q f, storeFind ([] : Store) q = some f → f.readOk = true) ∧
    append_new_data_partitioned [goodRowC1] [] =
      some ([(partitionFilename 2025 8, ⟨[goodRowC1], true⟩)], 1) ∧
    append_new_data_partitioned [goodRowC1]
        [(partitionFilename 2025 8, ⟨[goodRowC1], true⟩)] =
      some ([(partitionFilename 2025 8, ⟨[goodRowC1], true⟩)], 0) := by
  refine ⟨fun q f hf => Option.noConfusion hf, by decide, ?_⟩
  exact c2_router_idempotent [goodRowC1] []
    [(partitionFilename 2025 8, ⟨[goodRowC1], true⟩)] 1
    (fun q f hf => Option.noConfusion hf) (by decide)

/-! ## Deduplication lemmas for Combine -/

theorem mem_of_mem_dedupFirstBy {α κ : Type} [DecidableEq κ] (key : α → κ)
    (seen : List κ) (l : List α) (r : α) (h : r ∈ dedupFirstBy key seen l) : r ∈ l := by
  induction l generalizing seen with
  | nil => cases h
  | cons a rest ih =>
    rw [dedupFirstBy] at h
    by_cases hc : seen.contains (key a) = true
    · rw [if_pos hc] at h
      exact List.mem_cons_of_mem _ (ih seen h)
    · rw [if_neg hc] at h
      rcases List.mem_cons.mp h with h1 | h1
      · subst h1; exact List.mem_cons_self _ _
      · exact List.mem_cons_of_mem _ (ih (key a :: seen) h1)

theorem key_not_seen_of_mem_dedupFirstBy {α κ : Type} [DecidableEq κ] (key : α → κ)
    (seen : List κ) (l : List α) (r : α) (h : r ∈ dedupFirstBy key seen l) :
    key r ∉ seen := by
  induction l generalizing seen with
  | nil => cases h
  | cons a rest ih =>
    rw [dedupFirstBy] at h
    by_cases hc : seen.contains (key a) = true
    · rw [if_pos hc] at h
      exact ih seen h
    · rw [if_neg hc] at h
      rcases List.mem_cons.mp h with h1 | h1
      · subst h1
        intro hmem
        exact hc ((List.elem_iff).mpr hmem)
      · intro hmem
        exact ih (key a :: seen) h1 (List.mem_cons_of_mem _ hmem)

/-- Keep-first: an element surviving the dedup is the first element of the
input carrying its key. -/
theorem find_eq_of_mem_dedupFirstBy {α κ : Type} [DecidableEq κ] (key : α → κ)
    (seen : List κ) (l : List α) (r : α) (h : r ∈ dedupFirstBy key seen l) :
    l.find? (fun x => decide (key x = key r)) = some r := by
  induction l generalizing seen with
  | nil => cases h
  | cons a rest ih =>
    rw [dedupFirstBy] at h
    by_cases hc : seen.contains (key a) = true
    · rw [if_pos hc] at h
      have hkr : key r ∉ seen := key_not_seen_of_mem_dedupFirstBy key seen rest r h
      have hka : key a ∈ seen := (List.elem_iff).mp hc
      have hne : key a ≠ key r := fun he => hkr (he ▸ hka)
      rw [List.find?_cons_of_neg _ (by simpa using hne)]
      exact ih seen h
    · rw [if_neg hc] at h
      rcases List.mem_cons.mp h with h1 | h1
      · subst h1
        rw [List.find?_cons_of_pos _ (by simp)]
      · have hkr : key r ∉ key a :: seen :=
          key_not_seen_of_mem_dedupFirstBy key (key a :: seen) rest r h1
        have hne : key a ≠ key r := fun he => hkr (he ▸ List.mem_cons_self _ _)
        rw [List.find?_cons_of_neg _ (by simpa using hne)]
        exact ih (key a :: seen) h1

/-- The dedup output carries each value at most once. -/
theorem count_dedupFirstBy_le_one {α κ : Type} [DecidableEq α] [DecidableEq κ] (key : α → κ)
    (seen : List κ) (l : List α) (r : α) :
    (dedupFirstBy key seen l).count r ≤ 1 := by
  induction l generalizing seen with
  | nil => exact Nat.zero_le 1
  | cons a rest ih =>
    rw [dedupFirstBy]
    by_cases hc : seen.contains (key a) = true
    · rw [if_pos hc]
      exact ih seen
    · rw [if_neg hc]
      by_cases har : a = r
      · subst har
        rw [List.count_cons_self]
        have hnot : a ∉ dedupFirstBy key (key a :: seen) rest := by
          intro hmem
          exact key_not_seen_of_mem_dedupFirstBy key (key a :: seen) rest a hmem
            (List.mem_cons_self _ _)
        rw [List.count_eq_zero.mpr hnot]
      · rw [List.count_cons_of_ne (fun he => har he.symm)]
        exact ih (key a :: seen)

/-- Exact-row dedup does not change which element is the first satisfying a
predicate, as long as no sought element was already seen. -/
theorem find_dedupFirstBy_id {α : Type} [DecidableEq α] (p : α → Bool)
    (seen : List α) (l : List α) (h : ∀ x ∈ l, p x = true → x ∉ seen) :
    (dedupFirstBy id seen l).find? p = l.find? p := by
  induction l generalizing seen with
  | nil => rfl
  | cons a rest ih =>
    rw [dedupFirstBy]
    by_cases hpa : p a = true
    · have hans : a ∉ seen := h a (List.mem_cons_self _ _) hpa
      have hc : seen.contains (id a) = false := by
        by_cases hc : seen.contains (id a) = true
        · exact absurd ((List.elem_iff).mp hc) hans
        · simpa using hc
      rw [hc]
      simp only [Bool.false_eq_true, if_false]
      rw [List.find?_cons_of_pos _ hpa, List.find?_cons_of_pos _ hpa]
    · by_cases hc : seen.contains (id a) = true
      · rw [if_pos hc]
        rw [List.find?_cons_of_neg _ hpa]
        exact ih seen (fun x hx hpx => h x (List.mem_cons_of_mem _ hx) hpx)
      · rw [if_neg hc]
        rw [List.find?_cons_of_neg _ hpa, List.find?_cons_of_neg _ hpa]
        refine ih (a :: seen) (fun x hx hpx hmem => ?_)
        rcases List.mem_cons.mp hmem with h1 | h1
        · subst h1; exact absurd hpx hpa
        · exact h x (List.mem_cons_of_mem _ hx) hpx h1

/-- Key coverage: every input key survives into the dedup output (unless it
was already seen). -/
theorem key_covered_dedupFirstBy {α κ : Type} [DecidableEq κ] (key : α → κ)
    (seen : List κ) (l : List α) (x : α) (hx : x ∈ l) :
    key x ∈ seen ∨ ∃ r ∈ dedupFirstBy key seen l, key r = key x := by
  induction l generalizing seen with
  | nil => cases hx
  | cons a rest ih =>
    rw [dedupFirstBy]
    by_cases hc : seen.contains (key a) = true
    · rw [if_pos hc]
      rcases List.mem_cons.mp hx with h1 | h1
      · subst h1
        exact Or.inl ((List.elem_iff).mp hc)
      · exact ih seen h1
    · rw [if_neg hc]
      rcases List.mem_cons.mp hx with h1 | h1
      · subst h1
        exact Or.inr ⟨x, List.mem_cons_self _ _, rfl⟩
      · rcases ih (key a :: seen) h1 with h2 | h2
        · rcases List.mem_cons.mp h2 with h3 | h3
          · exact Or.inr ⟨a, List.mem_cons_self _ _, h3.symm⟩
          · exact Or.inl h3
        · obtain ⟨r, hr, hkr⟩ := h2
          exact Or.inr ⟨r, List.mem_cons_of_mem _ hr, hkr⟩

theorem mem_listJoin {α : Type} (L : List (List α)) (x : α) :
    x ∈ listJoin L ↔ ∃ l ∈ L, x ∈ l := by
  induction L with
  | nil => simp [listJoin]
  | cons a rest ih =>
    rw [listJoin]
    constructor
    · intro h
      rcases List.mem_append.mp h with h1 | h1
      · exact ⟨a, List.mem_cons_self _ _, h1⟩
      · obtain ⟨l, hl, hx⟩ := ih.mp h1
        exact ⟨l, List.mem_cons_of_mem _ hl, hx⟩
    · rintro ⟨l, hl, hx⟩
      rcases List.mem_cons.mp hl with h1 | h1
      · subst h1; exact List.mem_append.mpr (Or.inl hx)
      · exact List.mem_append.mpr (Or.inr (ih.mpr ⟨l, h1, hx⟩))

/-- The surviving processed rows of all files, concatenated in
file-processing order: the list over which Combine deduplicates. -/
def combineInput (files : List (String × List RawCRow)) : List PRow :=
  listJoin (files.map (fun f => (processFile f.1 f.2).1))

theorem combine_eq (files : List (String × List RawCRow)) :
    combine_all_months files =
      List.insertionSort combineSortRel
        (dedupFirstBy semKey [] (dedupFirstBy id [] (combineInput files))) := rfl

/-! ## Fixtures for the Combine claims -/

/-- A raw monthly row as in the spec example. -/
def rowA : RawCRow :=
  { dateTime := "11 August 2025 - 12:07 PM"
    latitude := "14.1"
    longitude := "121.0"
    depth := "10"
    magnitude := "4.5"
    location := "Manila" }

/-- Same instant as `rowA` under a different raw timestamp rendering, same
latitude/longitude/magnitude, different depth cell: a semantic duplicate. -/
def rowB : RawCRow :=
  { dateTime := "2025-08-11 12:07:00"
    latitude := "14.1"
    longitude := "121.0"
    depth := "12"
    magnitude := "4.5"
    location := "Manila" }

/-- A row whose magnitude fails numeric coercion. -/
def rowNoMag : RawCRow :=
  { dateTime := "2025-08-11 12:07:00"
    latitude := "14.1"
    longitude := "121.0"
    depth := "10"
    magnitude := "n/a"
    location := "Manila" }

/-- A row missing only depth. -/
def rowNoDepth : RawCRow :=
  { dateTime := "2025-08-10 09:00:00"
    latitude := "14.2"
    longitude := "121.1"
    depth := "-"
    magnitude := "3.1"
    location := "Batangas" }

/-- C4 (counterexample): two byte-identical input rows (one per file) whose
magnitude cell fails numeric coercion are BOTH dropped by the
lat/long/magnitude filter, so zero — not exactly one — survive in the
merged output. -/
theorem c4_counterexample :
    combine_all_months [("a.csv", [rowNoMag]), ("b.csv", [rowNoMag])] = [] := by decide

/-- C4 (amended): among the rows that survive the latitude/longitude/
magnitude coercion filter, Combine's two-stage dedup guarantees:
(1) no row value occurs twice in the merged output;
(2) every merged row is the FIRST surviving row, in input-file-processing
order, carrying its semantic key (canonical timestamp, latitude, longitude,
magnitude) — so byte-identical survivors collapse to one and semantic
duplicates with differing raw timestamps collapse keeping the first;
(3) every surviving input row's semantic key is represented in the output. -/
theorem c4_combine_dedup (files : List (String × List RawCRow)) :
    (∀ r : PRow, (combine_all_months files).count r ≤ 1) ∧
    (∀ r ∈ combine_all_months files,
      (combineInput files).find? (fun x => decide (semKey x = semKey r)) = some r) ∧
    (∀ x ∈ combineInput files,
      ∃ r ∈ combine_all_months files, semKey r = semKey x) := by
  have hperm :
      List.Perm (combine_all_months files)
        (dedupFirstBy semKey [] (dedupFirstBy id [] (combineInput files))) := by
    rw [combine_eq]
    exact List.perm_insertionSort combineSortRel _
  refine ⟨?_, ?_, ?_⟩
  · intro r
    rw [hperm.count_eq r]
    exact count_dedupFirstBy_le_one semKey [] _ r
  · intro r hr
    have hr2 := hperm.mem_iff.mp hr
    have hfind := find_eq_of_mem_dedupFirstBy semKey [] _ r hr2
    rw [find_dedupFirstBy_id _ [] _ (fun x _ _ => List.not_mem_nil x)] at hfind
    exact hfind
  · intro x hx
    have hx1 : x ∈ dedupFirstBy id [] (combineInput files) :=
      mem_dedupFirstBy_id [] _ x hx (List.not_mem_nil x)
    rcases key_covered_dedupFirstBy semKey [] _ x hx1 with h | h
    · exact absurd h (List.not_mem_nil _)
    · obtain ⟨r, hr, hkr⟩ := h
      exact ⟨r, hperm.mem_iff.mpr hr, hkr⟩

theorem c4_witness :
    (combine_all_months [("a.csv", [rowA]), ("b.csv", [rowB])]).count
      (processRow ("a.csv") rowA) ≤ 1 ∧
    (combineInput [("a.csv", [rowA]), ("b.csv", [rowB])]).find?
      (fun x => decide (semKey x = semKey (processRow ("a.csv") rowA))) =
        some (processRow ("a.csv") rowA) ∧
    (∃ r ∈ combine_all_months [("a.csv", [rowA]), ("b.csv", [rowB])],
      semKey r = semKey (processRow ("b.csv") rowB)) :=
  ⟨(c4_combine_dedup [("a.csv", [rowA]), ("b.csv", [rowB])]).1 _,
    (c4_combine_dedup [("a.csv", [rowA]), ("b.csv", [rowB])]).2.1 _ (by decide),
    (c4_combine_dedup [("a.csv", [rowA]), ("b.csv", [rowB])]).2.2 _ (by decide)⟩

/-- The removed-row count reported per file is the number of rows failing
the latitude/longitude/magnitude coercion. -/
theorem processFile_removed (fname : String) (rows : List RawCRow) :
    (processFile fname rows).2 =
      rows.countP (fun x => !validRow (processRow fname x)) := by
  unfold processFile
  simp only []
  induction rows with
  | nil => rfl
  | cons a rest ih =>
    have hle : ((rest.map (processRow fname)).filter validRow).length ≤
        (rest.map (processRow fname)).length := List.length_filter_le _ _
    rw [List.countP_cons]
    by_cases h : validRow (processRow fname a) = true
    · rw [List.map_cons, List.filter_cons_of_pos h, List.length_cons, List.length_cons]
      have hnot : (!validRow (processRow fname a)) = false := by rw [h]; rfl
      rw [hnot]
      simp only [Bool.false_eq_true, if_false, Nat.add_zero, Nat.succ_sub_succ]
      exact ih
    · rw [List.map_cons, List.filter_cons_of_neg h, List.length_cons]
      have hnot : (!validRow (processRow fname a)) = true := by
        have h' : validRow (processRow fname a) = false := by simpa using h
        rw [h']
        rfl
      rw [hnot]
      have hone : (if (true : Bool) = true then 1 else 0) = 1 := rfl
      rw [hone]
      omega

/-- C8 (confirmed): per input file, the reported removed-count is exactly
the number of rows whose latitude, longitude or magnitude fails numeric
coercion; such a row never reaches the merged output; and a row missing
only depth (all three key fields coerce) is retained into the file's kept
rows. -/
theorem c8_row_dropping_policy (files : List (String × List RawCRow))
    (fname : String) (rows : List RawCRow) (hf : (fname, rows) ∈ files)
    (raw : RawCRow) (hraw : raw ∈ rows) :
    ((processFile fname rows).2 =
      rows.countP (fun x => !((to_numeric x.latitude).isSome &&
        (to_numeric x.longitude).isSome && (to_numeric x.magnitude).isSome))) ∧
    ((to_numeric raw.latitude = none ∨ to_numeric raw.longitude = none ∨
        to_numeric raw.magnitude = none) →
      processRow fname raw ∉ combine_all_months files) ∧
    (((to_numeric raw.latitude).isSome = true ∧ (to_numeric raw.longitude).isSome = true ∧
        (to_numeric raw.magnitude).isSome = true ∧ to_numeric raw.depth = none) →
      processRow fname raw ∈ (processFile fname rows).1) := by
  refine ⟨?_, ?_, ?_⟩
  · exact processFile_removed fname rows
  · intro hbad hmem
    have hvalid : validRow (processRow fname raw) = false := by
      unfold validRow processRow
      rcases hbad with h | h | h <;> rw [h] <;> simp
    have hmem2 : processRow fname raw ∈
        List.insertionSort combineSortRel
          (dedupFirstBy semKey [] (dedupFirstBy id [] (combineInput files))) := by
      rw [← combine_eq]
      exact hmem
    have hin : processRow fname raw ∈ combineInput files :=
      mem_of_mem_dedupFirstBy id [] _ _
        (mem_of_mem_dedupFirstBy semKey [] _ _
          ((List.perm_insertionSort combineSortRel _).mem_iff.mp hmem2))
    obtain ⟨l, hl, hxl⟩ := (mem_listJoin _ _).mp hin
    obtain ⟨g, hg, hgl⟩ := List.mem_map.mp hl
    rw [← hgl] at hxl
    have := (List.mem_filter.mp hxl).2
    rw [hvalid] at this
    cases this
  · rintro ⟨h1, h2, h3, _⟩
    show processRow fname raw ∈ (rows.map (processRow fname)).filter validRow
    refine List.mem_filter.mpr ⟨List.mem_map.mpr ⟨raw, hraw, rfl⟩, ?_⟩
    unfold validRow processRow
    simp only []
    rw [h1, h2, h3]
    rfl

theorem c8_witness :
    ((processFile ("m.csv") [rowNoDepth, rowNoMag]).2 =
      [rowNoDepth, rowNoMag].countP (fun x => !((to_numeric x.latitude).isSome &&
        (to_numeric x.longitude).isSome && (to_numeric x.magnitude).isSome))) ∧
    (processRow ("m.csv") rowNoMag ∉
      combine_all_months [("m.csv", [rowNoDepth, rowNoMag])]) ∧
    (processRow ("m.csv") rowNoDepth ∈ (processFile ("m.csv") [rowNoDepth, rowNoMag]).1) :=
  ⟨(c8_row_dropping_policy [("m.csv", [rowNoDepth, rowNoMag])] ("m.csv")
      [rowNoDepth, rowNoMag] (by decide) rowNoMag (by decide)).1,
    (c8_row_dropping_policy [("m.csv", [rowNoDepth, rowNoMag])] ("m.csv")
      [rowNoDepth, rowNoMag] (by decide) rowNoMag (by decide)).2.1
      (Or.inr (Or.inr (by decide))),
    (c8_row_dropping_policy [("m.csv", [rowNoDepth, rowNoMag])] ("m.csv")
      [rowNoDepth, rowNoMag] (by decide) rowNoDepth (by decide)).2.2
      ⟨by decide, by decide, by decide, by decide⟩⟩

/-! ## The Split claim -/

/-- C6 (confirmed): Split output correctness.  When the master has a date
column and no row parses to year 2025, the run is a clean no-op writing no
files; and in every monthly file Split writes, each row's parsed timestamp
has year 2025 and the rows are ascending by parsed timestamp. -/
theorem c6_split_correctness (df : MasterDF) :
    (∀ j, findDateCol df.cols = some j →
      (∀ d ∈ df.rows.filterMap (fun r => pd_to_datetime (cellAt r j)), d.year ≠ 2025) →
      partition_master_2025 df = .noRows2025) ∧
    (∀ files, partition_master_2025 df = .written files →
      ∀ f ∈ files, (∀ x ∈ f.rows, x.2.year = 2025) ∧ List.Sorted splitRel f.rows) := by
  constructor
  · intro j hj hyr
    unfold partition_master_2025
    rw [hj]
    show (if (splitParsed2025 df j).isEmpty = true then SplitResult.noRows2025
          else SplitResult.written (splitFiles df j)) = SplitResult.noRows2025
    have hnil : splitParsed2025 df j = [] := by
      unfold splitParsed2025
      apply List.filter_eq_nil_iff.mpr
      intro x hx hdec
      obtain ⟨r, hr, hopt⟩ := List.mem_filterMap.mp hx
      cases hpd : pd_to_datetime (cellAt r j) with
      | none => rw [hpd] at hopt; cases hopt
      | some dt =>
        rw [hpd] at hopt
        injection hopt with hopt
        have hd : dt ∈ df.rows.filterMap (fun r => pd_to_datetime (cellAt r j)) :=
          List.mem_filterMap.mpr ⟨r, hr, hpd⟩
        rw [← hopt] at hdec
        exact hyr dt hd (of_decide_eq_true hdec)
    rw [if_pos (by rw [hnil]; rfl)]
  · intro files hw f hf
    unfold partition_master_2025 at hw
    cases hjj : findDateCol df.cols with
    | none =>
      rw [hjj] at hw
      cases hw
    | some j =>
      rw [hjj] at hw
      have hw2 : (if (splitParsed2025 df j).isEmpty = true then SplitResult.noRows2025
          else SplitResult.written (splitFiles df j)) = SplitResult.written files := hw
      by_cases he : (splitParsed2025 df j).isEmpty = true
      · rw [if_pos he] at hw2
        cases hw2
      · rw [if_neg he] at hw2
        injection hw2 with hw2
        rw [← hw2] at hf
        obtain ⟨k, _, hk⟩ := List.mem_map.mp hf
        have hrows : f.rows =
            (splitSorted df j).filter (fun x => decide (x.2.year = k.1 ∧ x.2.month = k.2)) := by
          rw [← hk]
        have hsorted : List.Sorted splitRel (splitSorted df j) := by
          unfold splitSorted
          exact List.sorted_insertionSort splitRel _
        constructor
        · intro x hx
          rw [hrows] at hx
          have hx1 : x ∈ splitSorted df j := List.mem_of_mem_filter hx
          have hx2 : x ∈ splitParsed2025 df j := by
            unfold splitSorted at hx1
            exact (List.perm_insertionSort splitRel _).mem_iff.mp hx1
          unfold splitParsed2025 at hx2
          have := (List.mem_filter.mp hx2).2
          exact of_decide_eq_true this
        · rw [hrows]
          exact List.Pairwise.filter _ hsorted

/-! ### Fixtures for the Split witness -/

def splitCols : List String :=
  ["Date-Time", "Latitude", "Longitude", "Depth", "Magnitude", "Location"]

def mrow24 : Row := ["2024-05-01 10:00:00", "1", "2", "3", "4", "A"]
def mrow0811 : Row := ["2025-08-11 12:07:00", "14.1", "121.0", "10", "4.5", "Manila"]
def mrow0810 : Row := ["2025-08-10 09:00:00", "14.2", "121.1", "8", "3.1", "Batangas"]

/-- A master whose rows are all from 2024. -/
def df24 : MasterDF := { cols := splitCols, rows := [mrow24] }

/-- A master mixing 2024 and 2025 rows, the 2025 rows out of time order. -/
def df2425 : MasterDF := { cols := splitCols, rows := [mrow24, mrow0811, mrow0810] }

/-- The single monthly file Split writes for `df2425`. -/
def splitFileAug : SplitFile :=
  { name := "phivolcs_earthquakes_2025_08.csv"
    header := splitCols
    rows := [(mrow0810, ⟨2025, 8, 10, 9, 0, 0⟩), (mrow0811, ⟨2025, 8, 11, 12, 7, 0⟩)] }

theorem c6_witness :
    partition_master_2025 df24 = .noRows2025 ∧
    partition_master_2025 df2425 = .written [splitFileAug] ∧
    (∀ x ∈ splitFileAug.rows, x.2.year = 2025) ∧
    List.Sorted splitRel splitFileAug.rows := by
  refine ⟨(c6_split_correctness df24).1 0 (by decide) (by decide), by decide, ?_, ?_⟩
  · exact ((c6_split_correctness df2425).2 [splitFileAug] (by decide) splitFileAug
      (List.mem_cons_self _ _)).1
  · exact ((c6_split_correctness df2425).2 [splitFileAug] (by decide) splitFileAug
      (List.mem_cons_self _ _)).2

end Phivolcs
